import Mathlib

/-!
Shallow embedding of the shift-scheduling rule engine
(`src/scheduling_rules.js`, the later three-shift revision, and
`src/unnamed/part_000`, the earlier revision; both attach a `RuleEngine`
object to the global namespace).

Modelling conventions, used uniformly below:
* Calendar dates are modelled as integers: the days of the target month are
  `1 .. daysInMonth`; `0, -1, ...` are the tail of the previous month and
  `daysInMonth + 1, ...` the next month.  JavaScript `Date` arithmetic
  (`new Date(year, month, k)` for arbitrary `k`, `setDate`, month-end
  computation) is exactly this integer arithmetic on the day index, and
  `formatDate` becomes the (injective) rendering of that integer.
* Shift tags are the fixed enumeration used by the source
  (`'day'`, `'evening'`, `'night'`, `'weekend-day'`, `'weekend-night'`,
  `'off'`), modelled as the inductive `Shift`.
* A rule's `value` is modelled as the number it coerces to: `some n` when
  numeric, `none` when `parseInt`/numeric coercion yields `NaN`.
* `highlightConflict(grid, date, reason)` calls are modelled by returning the
  list of `Finding` records (date and reason text) in call order; the DOM
  sink itself is out of scope.
-/

/-- Shift kinds: the fixed tag enumeration of the source
(`WEEKDAY_SHIFT_ORDER`, `WEEKEND_SHIFT_ORDER`, `'off'`). -/
inductive Shift where
  | day
  | evening
  | night
  | weekendDay
  | weekendNight
  | off
deriving DecidableEq, Fintype, Repr

/-- One schedule entry `{employee, shift}` scoped to a date. -/
structure ShiftAssignment where
  employee : String
  shift : Shift
deriving DecidableEq, Repr

/-- Models `scheduleData`: date (integer day index) to list of assignments; a date
absent from the JS object is the empty list (`scheduleData[dateStr] || []`). -/
def ScheduleData : Type := Int → List ShiftAssignment

/-- One `highlightConflict` call: the date it targets and the reason text. -/
structure Finding where
  date : Int
  reason : String
deriving DecidableEq, Repr

/-- Models `formatDate`: renders our integer day index (stands for the `YYYY-MM-DD`
string, injectively). -/
def formatDate (d : Int) : String := toString d

/-- Models `isHoliday(dateStr, holidayDates)`:
`holidayDates && holidayDates[dateStr] === true`. -/
def isHoliday (d : Int) (holidayDates : Option (Int → Bool)) : Bool :=
  match holidayDates with
  | none => false
  | some f => f d

/-- The days `a, a+1, ..., a+n-1` (helper for the day-by-day `for` loops). -/
def rangeN (a : Int) : Nat → List Int
  | 0 => []
  | n + 1 => a :: rangeN (a + 1) n

/-- The days `lo .. hi` inclusive (empty when `hi < lo`). -/
def intRange (lo hi : Int) : List Int := rangeN lo (hi + 1 - lo).toNat

/-- Accumulation skeleton of the source's `for`/`forEach` loops that add to
`conflictCount` and emit highlights: sums the counts and concatenates the
findings in iteration order. -/
def collect (f : α → Nat × List Finding) : List α → Nat × List Finding
  | [] => (0, [])
  | x :: xs =>
    let r := f x
    let rest := collect f xs
    (r.1 + rest.1, r.2 ++ rest.2)

/-- Models `WEEKDAY_SHIFT_ORDER = ['day', 'evening', 'night']`. -/
def WEEKDAY_SHIFT_ORDER : List Shift := [Shift.day, Shift.evening, Shift.night]

/-- Models `WEEKEND_SHIFT_ORDER = ['weekend-day', 'weekend-night']`. -/
def WEEKEND_SHIFT_ORDER : List Shift := [Shift.weekendDay, Shift.weekendNight]

/-- JavaScript `Array.prototype.indexOf`: index of the first occurrence, `-1`
when absent. -/
def jsIndexOf : List Shift → Shift → Int
  | [], _ => -1
  | x :: xs, s =>
    if x = s then 0
    else
      let r := jsIndexOf xs s
      if r = -1 then -1 else r + 1

/-- Models `getShiftPosition(shiftType, isHoliday)`. -/
def getShiftPosition (shiftType : Shift) (holiday : Bool) : Int :=
  jsIndexOf (if holiday then WEEKEND_SHIFT_ORDER else WEEKDAY_SHIFT_ORDER) shiftType

/-- Models `hasEnoughShiftGap(shift1, shift2, isHoliday1, isHoliday2)`
(src/scheduling_rules.js lines 62-74). -/
def hasEnoughShiftGap (shift1 shift2 : Shift) (isHoliday1 isHoliday2 : Bool) : Bool :=
  if isHoliday1 ≠ isHoliday2 then true
  else if shift1 = Shift.off ∨ shift2 = Shift.off then true
  else if isHoliday1 then true
  else
    let pos1 := getShiftPosition shift1 false
    let pos2 := getShiftPosition shift2 false
    if pos1 = -1 ∨ pos2 = -1 then true
    else
      let steps := (pos2 - pos1 + (WEEKDAY_SHIFT_ORDER.length : Int)) % (WEEKDAY_SHIFT_ORDER.length : Int)
      steps > 1

/-- The JS tag string of a shift kind (used by reason texts). -/
def shiftTag : Shift → String
  | Shift.day => "day"
  | Shift.evening => "evening"
  | Shift.night => "night"
  | Shift.weekendDay => "weekend-day"
  | Shift.weekendNight => "weekend-night"
  | Shift.off => "off"

/-- An employee rule `{type, employee, value}`; `value` is the number the
configured value coerces to (`none` = not a number). -/
structure EmployeeRule where
  type : String
  employee : String
  value : Option Int
deriving Repr

/-- A shift rule `{type, shift, value}`. -/
structure ShiftRule where
  type : String
  shift : Shift
  value : Option Int
deriving Repr

/-- The shared evaluation context built by `RuleEngine.validate`: schedule
snapshot, target-month length, holiday map, availability map and the shift
label table (the DOM `calendarGrid` sink is modelled by the returned
`Finding` lists). -/
structure Context where
  scheduleData : ScheduleData
  daysInMonth : Nat
  holidayDates : Option (Int → Bool)
  employeeAvailability : Option (String → Int → Option Bool)
  shiftTypes : Shift → String

/-- Whether `employee` has a non-`off` assignment on day `d`
(`(scheduleData[dateStr] || []).some(s => s.employee === employee && s.shift !== 'off')`). -/
def worksOn (sched : ScheduleData) (employee : String) (d : Int) : Bool :=
  (sched d).any (fun s => s.employee == employee && s.shift != Shift.off)

/-- Loop of `checkMaxConsecutiveWorkDays`: processes `n` days starting at day
`a`, carrying the running streak `consecutiveCount`; `M` is the last day of
the target month.  A conflict is recorded (and the day highlighted) when the
streak exceeds `maxDays` and the day lies in the target month. -/
def maxConsecGo (employee : String) (worked : Int → Bool) (maxDays : Int) (M : Int) :
    Int → Nat → Nat → Nat × List Finding
  | _, 0, _ => (0, [])
  | a, n + 1, streak =>
    if worked a then
      let streak' := streak + 1
      let rest := maxConsecGo employee worked maxDays M (a + 1) n streak'
      if (streak' : Int) > maxDays ∧ 1 ≤ a ∧ a ≤ M then
        (rest.1 + 1,
          ⟨a, employee ++ " 連續工作第 " ++ toString streak' ++ " 天 (超過限制 "
              ++ toString maxDays ++ " 天)"⟩ :: rest.2)
      else rest
    else maxConsecGo employee worked maxDays M (a + 1) n 0

/-- Models `checkMaxConsecutiveWorkDays(context)` (src/scheduling_rules.js lines
118-148).  Scans from `maxDays` days before the month through month end.
When `parseInt(rule.value, 10)` is `NaN` the computed start date is an
invalid `Date`, every comparison `d <= endDate` is false and the loop body
never runs, so the check yields no conflict: modelled by the `none` branch. -/
def checkMaxConsecutiveWorkDays (rule : EmployeeRule) (ctx : Context) : Nat × List Finding :=
  match rule.value with
  | none => (0, [])
  | some maxDays =>
    let startDate := 1 - maxDays
    let endDate := (ctx.daysInMonth : Int)
    maxConsecGo rule.employee (worksOn ctx.scheduleData rule.employee) maxDays endDate
      startDate (endDate + 1 - startDate).toNat 0

/-- Models `checkNo24HourShift(context)` (src/scheduling_rules.js lines 153-188):
for each day of the month, the previous day's night-class shift is
`weekend-night` when the previous day is a holiday (else `night`), and the
current day's day-class shift is `weekend-day` when the current day is a
holiday (else `day`); working both yields one conflict highlighted on the
current day plus a secondary highlight on the previous day. -/
def checkNo24HourShift (rule : EmployeeRule) (ctx : Context) : Nat × List Finding :=
  let employee := rule.employee
  collect (fun day =>
    let prev := day - 1
    let currentIsHoliday := isHoliday day ctx.holidayDates
    let prevIsHoliday := isHoliday prev ctx.holidayDates
    let nightShifts : List Shift := if prevIsHoliday then [Shift.weekendNight] else [Shift.night]
    let dayShifts : List Shift := if currentIsHoliday then [Shift.weekendDay] else [Shift.day]
    let hadNightShift := (ctx.scheduleData prev).any
      (fun s => s.employee == employee && nightShifts.contains s.shift)
    let hasDayShift := (ctx.scheduleData day).any
      (fun s => s.employee == employee && dayShifts.contains s.shift)
    if hadNightShift && hasDayShift then
      (1, [⟨day, employee ++ " 24小時連續工作 (" ++ formatDate prev ++ " 夜班 → "
              ++ formatDate day ++ " 白班)"⟩,
           ⟨prev, employee ++ " 夜班後隔天接白班"⟩])
    else (0, []))
    (intRange 1 ctx.daysInMonth)

/-- Models `checkNoDirectShiftTransition(context)` (src/scheduling_rules.js lines
193-227). -/
def checkNoDirectShiftTransition (rule : EmployeeRule) (ctx : Context) : Nat × List Finding :=
  let employee := rule.employee
  collect (fun day =>
    let next := day + 1
    let currentIsHoliday := isHoliday day ctx.holidayDates
    let nextIsHoliday := isHoliday next ctx.holidayDates
    let todayShift := (ctx.scheduleData day).find?
      (fun s => s.employee == employee && s.shift != Shift.off)
    let tomorrowShift := (ctx.scheduleData next).find?
      (fun s => s.employee == employee && s.shift != Shift.off)
    match todayShift, tomorrowShift with
    | some t, some m =>
      if hasEnoughShiftGap t.shift m.shift currentIsHoliday nextIsHoliday then (0, [])
      else
        let reason := employee ++ " 班次間隔不足 (" ++ shiftTag t.shift ++ " → "
          ++ shiftTag m.shift ++ ")"
        (1, [⟨day, reason⟩, ⟨next, reason⟩])
    | _, _ => (0, []))
    (intRange 1 ctx.daysInMonth)

/-- JavaScript `staffCount < rule.value` when `rule.value` is a number or
`NaN` (`NaN` comparisons are false). -/
def jsLtValue (n : Int) (v : Option Int) : Bool :=
  match v with
  | none => false
  | some m => n < m

/-- Rendering of a rule value inside reason texts. -/
def jsNumText (v : Option Int) : String :=
  match v with
  | none => "NaN"
  | some n => toString n

/-- Models `checkMinStaff(context)` (src/scheduling_rules.js lines 232-248): counts
exact-kind matches per day; a non-numeric `rule.value` makes the comparison
`staffCount < rule.value` always false. -/
def checkMinStaff (rule : ShiftRule) (ctx : Context) : Nat × List Finding :=
  collect (fun day =>
    let staffCount := ((ctx.scheduleData day).filter (fun s => s.shift == rule.shift)).length
    if jsLtValue staffCount rule.value then
      (1, [⟨day, ctx.shiftTypes rule.shift ++ " 人數不足 (目前: " ++ toString staffCount
              ++ ", 需要: " ++ jsNumText rule.value ++ ")"⟩])
    else (0, []))
    (intRange 1 ctx.daysInMonth)

/-- Models `parseInt(rule.value, 10) || 2` of `checkShiftBalance`: `NaN` and `0` are
falsy and fall back to the default `2`. -/
def balanceMaxDifference (v : Option Int) : Int :=
  match v with
  | none => 2
  | some n => if n = 0 then 2 else n

/-- Number of assignments of `employee` over the target month whose shift is
in `classes` (the month-long counting loop of `checkShiftBalance`). -/
def countShiftsInMonth (ctx : Context) (employee : String) (classes : List Shift) : Nat :=
  ((intRange 1 ctx.daysInMonth).map (fun d =>
    ((ctx.scheduleData d).filter
      (fun s => s.employee == employee && classes.contains s.shift)).length)).sum

/-- The backward scan `for (let day = daysInMonth; day >= 1; day--) ... break`:
latest day in `1 .. n` satisfying `p`. -/
def lastMatch (p : Int → Bool) : Nat → Option Int
  | 0 => none
  | n + 1 => if p ((n : Int) + 1) then some ((n : Int) + 1) else lastMatch p n

/-- Models `checkShiftBalance(context)` (src/scheduling_rules.js lines 253-293). -/
def checkShiftBalance (rule : EmployeeRule) (ctx : Context) : Nat × List Finding :=
  let employee := rule.employee
  let maxDifference := balanceMaxDifference rule.value
  let dayShiftCount := countShiftsInMonth ctx employee [Shift.day, Shift.weekendDay]
  let nightShiftCount := countShiftsInMonth ctx employee [Shift.night, Shift.weekendNight]
  let difference := ((dayShiftCount : Int) - (nightShiftCount : Int)).natAbs
  if (difference : Int) > maxDifference ∧ (dayShiftCount > 0 ∨ nightShiftCount > 0) then
    let dominantShift := if dayShiftCount > nightShiftCount then
        [Shift.day, Shift.weekendDay] else [Shift.night, Shift.weekendNight]
    let lastShiftDate := lastMatch
      (fun d => (ctx.scheduleData d).any
        (fun s => s.employee == employee && dominantShift.contains s.shift))
      ctx.daysInMonth
    match lastShiftDate with
    | some dd =>
      (1, [⟨dd, employee ++ " 班次不平衡：白班" ++ toString dayShiftCount ++ "次，夜班"
              ++ toString nightShiftCount ++ "次 (差距" ++ toString difference ++ "，限制"
              ++ toString maxDifference ++ ")"⟩])
    | none => (1, [])
  else (0, [])

/-- Models `checkEmployeeAvailability(context)` (src/scheduling_rules.js lines
298-313): a missing availability map disables the check. -/
def checkEmployeeAvailability (ctx : Context) : Nat × List Finding :=
  match ctx.employeeAvailability with
  | none => (0, [])
  | some avail =>
    collect (fun day =>
      collect (fun (s : ShiftAssignment) =>
        if s.shift != Shift.off && avail s.employee day == some false then
          (1, [⟨day, s.employee ++ " 在此日設定為不可用"⟩])
        else (0, []))
        (ctx.scheduleData day))
      (intRange 1 ctx.daysInMonth)

/-- Insertion into the `employeeShifts` grouping object of
`checkDuplicateAssignment` (object keys keep first-insertion order). -/
def addShift (l : List (String × List Shift)) (e : String) (s : Shift) :
    List (String × List Shift) :=
  match l with
  | [] => [(e, [s])]
  | (e', ss) :: rest =>
    if e' = e then (e', ss ++ [s]) :: rest else (e', ss) :: addShift rest e s

/-- Groups one day's non-`off` assignments by employee, in first-appearance
order, each employee's shifts in schedule order. -/
def groupShifts (shifts : List ShiftAssignment) : List (String × List Shift) :=
  shifts.foldl (fun acc s => if s.shift = Shift.off then acc else addShift acc s.employee s.shift) []

/-- Models `checkDuplicateAssignment(context)` (src/scheduling_rules.js lines
318-340). -/
def checkDuplicateAssignment (ctx : Context) : Nat × List Finding :=
  collect (fun day =>
    collect (fun (entry : String × List Shift) =>
      if entry.2.length > 1 then
        (1, [⟨day, entry.1 ++ " 在同一天被安排多個班次: "
                ++ String.intercalate ", " (entry.2.map shiftTag)⟩])
      else (0, []))
      (groupShifts (ctx.scheduleData day)))
    (intRange 1 ctx.daysInMonth)

/-- The `employeeRuleHandlers` registry (tag → handler; `none` = unknown tag). -/
def employeeRuleHandlers (tag : String) : Option (EmployeeRule → Context → Nat × List Finding) :=
  if tag = "maxConsecutiveWorkDays" then some checkMaxConsecutiveWorkDays
  else if tag = "no24HourShift" then some checkNo24HourShift
  else if tag = "noDirectShiftTransition" then some checkNoDirectShiftTransition
  else if tag = "balanceShifts" then some checkShiftBalance
  else none

/-- The `shiftRuleHandlers` registry. -/
def shiftRuleHandlers (tag : String) : Option (ShiftRule → Context → Nat × List Finding) :=
  if tag = "minStaff" then some checkMinStaff else none

/-- The `systemRuleHandlers` registry values, in object insertion order
(`Object.values`); these always run. -/
def systemRuleHandlers : List (Context → Nat × List Finding) :=
  [checkEmployeeAvailability, checkDuplicateAssignment]

/-- Models `schedulingConditions`: the configured employee and shift rules (an
absent array is the empty list). -/
structure SchedulingConditions where
  employeeRules : List EmployeeRule
  shiftRules : List ShiftRule

/-- The value returned by `RuleEngine.validate`. -/
structure ValidateResult where
  totalConflicts : Nat
  isValid : Bool
deriving Repr, DecidableEq

/-- Models `RuleEngine.validate(params)` (src/scheduling_rules.js lines 356-380):
dispatches every configured employee rule and shift rule through the
registries (unknown tags are skipped), then runs every system handler,
accumulating `totalConflicts`; returns
`{totalConflicts, isValid: totalConflicts === 0}`.  The `alert` calls and
DOM clearing are presentation side effects outside this model. -/
def RuleEngine.validate (conds : SchedulingConditions) (ctx : Context) : ValidateResult :=
  let t1 := conds.employeeRules.foldl (fun acc r =>
    match employeeRuleHandlers r.type with
    | some h => acc + (h r ctx).1
    | none => acc) 0
  let t2 := conds.shiftRules.foldl (fun acc r =>
    match shiftRuleHandlers r.type with
    | some h => acc + (h r ctx).1
    | none => acc) t1
  let total := systemRuleHandlers.foldl (fun acc h => acc + (h ctx).1) t2
  ⟨total, total == 0⟩

/-- Per-employee statistics `{totalShifts, dayShifts, nightShifts}`. -/
structure EmployeeStat where
  totalShifts : Int
  dayShifts : Int
  nightShifts : Int
deriving Repr, DecidableEq

/-- Models `employeeStats`: an object keyed by employee, modelled as an association
list so that `Object.values` is its value list. -/
def Stats : Type := List (String × EmployeeStat)

/-- Models `employeeStats[e]` (first binding wins, as for JS object keys). -/
def statsFind (stats : Stats) (e : String) : Option EmployeeStat :=
  match stats with
  | [] => none
  | (k, v) :: rest => if k = e then some v else statsFind rest e

/-- Models `employeeStats[e]?.totalShifts || 0`. -/
def totalOf (stats : Stats) (e : String) : Int :=
  match statsFind stats e with
  | some st => st.totalShifts
  | none => 0

/-- Models `employeeStats[e]?.dayShifts || 0`. -/
def dayOf (stats : Stats) (e : String) : Int :=
  match statsFind stats e with
  | some st => st.dayShifts
  | none => 0

/-- Models `employeeStats[e]?.nightShifts || 0`. -/
def nightOf (stats : Stats) (e : String) : Int :=
  match statsFind stats e with
  | some st => st.nightShifts
  | none => 0

/-- Insertion step of the stable sort: `x` goes after every element strictly
before it and before the first element not strictly before it. -/
def insertBy (lt : α → α → Bool) (x : α) : List α → List α
  | [] => [x]
  | y :: ys => if lt y x then y :: insertBy lt x ys else x :: y :: ys

/-- Stable sort by a strict comparator, modelling `Array.prototype.sort`
(stable per the ECMAScript spec): elements the comparator ties keep their
input order. -/
def sortBy (lt : α → α → Bool) : List α → List α
  | [] => []
  | x :: xs => insertBy lt x (sortBy lt xs)

/-- Models `[...arr.slice(k), ...arr.slice(0, k)]`: the cyclic rotation used by the
`rotate` strategy. -/
def jsRotate (l : List α) (k : Nat) : List α := l.drop k ++ l.take k

/-- Lexicographic string comparison on the character sequence: models both
the comparison used by a bare `Array.prototype.sort()` (UTF-16 code units)
and `localeCompare`, which coincide with code-point order for the plain
identifiers used as employee names. -/
def jsStrLt (a b : String) : Bool := decide (a.data < b.data)

/-- The ascending-`totalShifts` comparator (`balanced` and the default
strategy case): `(statsA.totalShifts - statsB.totalShifts) < 0`. -/
def totalLt (stats : Stats) (a b : String) : Bool :=
  decide (totalOf stats a < totalOf stats b)

/-- The `minimize_night` comparator for night-class slots:
`(nA - nB) || (tA - tB) < 0`. -/
def minimizeNightLt (stats : Stats) (a b : String) : Bool :=
  if nightOf stats a ≠ nightOf stats b then decide (nightOf stats a < nightOf stats b)
  else decide (totalOf stats a < totalOf stats b)

/-- Models `RuleEngine.selectEmployeesWithFairness` of the later revision
(src/scheduling_rules.js lines 384-410).  Note: despite its name and its
`allEmployees` parameter, this revision applies no fairness phase — it only
ranks the available pool by the strategy and takes the first
`requiredCount`. -/
def RuleEngine.selectEmployeesWithFairness (availableEmployees : List String)
    (shiftType : Shift) (requiredCount : Nat) (employeeStats : Stats)
    (allEmployees : List String) (strategy : String) (date : Option Nat) : List String :=
  if availableEmployees.length ≤ requiredCount then availableEmployees
  else
    let sorted :=
      if strategy = "balanced" then sortBy (totalLt employeeStats) availableEmployees
      else if strategy = "minimize_night" then
        if shiftType = Shift.night ∨ shiftType = Shift.weekendNight then
          sortBy (minimizeNightLt employeeStats) availableEmployees
        else sortBy (totalLt employeeStats) availableEmployees
      else if strategy = "rotate" then
        let s := sortBy jsStrLt availableEmployees
        match date with
        | some dayIndex => jsRotate s (dayIndex % s.length)
        | none => s
      else sortBy (totalLt employeeStats) availableEmployees
    sorted.take requiredCount

/-- Models `RuleEngine.calculateConsecutiveWorkDays`'s lookback loop: counts worked
days going backwards from `d`, stopping at the first non-worked day, with at
most `n` iterations. -/
def calcConsecGo (worked : Int → Bool) : Int → Nat → Nat
  | _, 0 => 0
  | d, n + 1 => if worked d then calcConsecGo worked (d - 1) n + 1 else 0

/-- Models `RuleEngine.calculateConsecutiveWorkDays(employee, targetDate,
scheduleData)` (src/scheduling_rules.js lines 416-432): starts from the day
before `targetDate` (the documented fix) and checks at most 14 days back. -/
def RuleEngine.calculateConsecutiveWorkDays (employee : String) (targetDate : Int)
    (scheduleData : ScheduleData) : Nat :=
  calcConsecGo (worksOn scheduleData employee) (targetDate - 1) 14

/-- The `balanced` comparator of the earlier revision's
`getBestEmployeeSelection` (src/unnamed/part_000 lines 566-594): ascending
`totalShifts`; on ties, for a `day` slot the larger `nightShifts - dayShifts`
balance first, for a `night` slot the larger `dayShifts - nightShifts`
balance first, and for any other slot kind `localeCompare` (alphabetical). -/
def v1BalancedLt (stats : Stats) (shiftType : Shift) (a b : String) : Bool :=
  if totalOf stats a ≠ totalOf stats b then decide (totalOf stats a < totalOf stats b)
  else if shiftType = Shift.day then
    decide (nightOf stats b - dayOf stats b < nightOf stats a - dayOf stats a)
  else if shiftType = Shift.night then
    decide (dayOf stats b - nightOf stats b < dayOf stats a - nightOf stats a)
  else jsStrLt a b

/-- The `minimize_night` comparator of the earlier revision for day-class
slots: ascending `dayShifts`, then `totalShifts`. -/
def v1MinimizeDayLt (stats : Stats) (a b : String) : Bool :=
  if dayOf stats a ≠ dayOf stats b then decide (dayOf stats a < dayOf stats b)
  else decide (totalOf stats a < totalOf stats b)

/-- Models `RuleEngine.getBestEmployeeSelection` of the earlier revision
(src/unnamed/part_000 lines 559-648). -/
def RuleEngineV1.getBestEmployeeSelection (availableEmployees : List String)
    (shiftType : Shift) (requiredCount : Nat) (employeeStats : Stats)
    (strategy : String) (date : Option Nat) : List String :=
  if availableEmployees.length ≤ requiredCount then availableEmployees
  else
    let sorted :=
      if strategy = "balanced" then
        sortBy (v1BalancedLt employeeStats shiftType) availableEmployees
      else if strategy = "minimize_night" then
        if shiftType = Shift.night then
          sortBy (minimizeNightLt employeeStats) availableEmployees
        else sortBy (v1MinimizeDayLt employeeStats) availableEmployees
      else if strategy = "rotate" then
        let s := sortBy jsStrLt availableEmployees
        match date with
        | some dayIndex => jsRotate s (dayIndex % s.length)
        | none => s
      else sortBy (totalLt employeeStats) availableEmployees
    sorted.take requiredCount

/-- Models `RuleEngine.getUnderScheduledEmployees` of the earlier revision
(src/unnamed/part_000 lines 656-675): employees whose `totalShifts` is below
the mean over the roster, sorted ascending by `totalShifts`.  The JS float
comparison `t < total / employees.length` is modelled division-free as
`t * employees.length < total` (equivalent for a non-empty roster; for an
empty roster the filtered list is empty either way). -/
def RuleEngineV1.getUnderScheduledEmployees (employeeStats : Stats)
    (employees : List String) : List String :=
  let totalShifts := (employeeStats.map (fun p => p.2.totalShifts)).sum
  let underScheduled := employees.filter
    (fun e => decide (totalOf employeeStats e * (employees.length : Int) < totalShifts))
  sortBy (totalLt employeeStats) underScheduled

/-- Models `RuleEngine.selectEmployeesWithFairness` of the earlier revision
(src/unnamed/part_000 lines 688-736): two-phase selection — first the
available under-scheduled employees (ranked by the strategy), then, if slots
remain, the remaining available employees. -/
def RuleEngineV1.selectEmployeesWithFairness (availableEmployees : List String)
    (shiftType : Shift) (requiredCount : Nat) (employeeStats : Stats)
    (allEmployees : List String) (strategy : String) (date : Option Nat) : List String :=
  if availableEmployees.length ≤ requiredCount then availableEmployees
  else
    let underScheduled := RuleEngineV1.getUnderScheduledEmployees employeeStats allEmployees
    let availableUnderScheduled := availableEmployees.filter
      (fun e => underScheduled.contains e)
    let selected :=
      if availableUnderScheduled.length > 0 then
        let priorityCount := min availableUnderScheduled.length requiredCount
        RuleEngineV1.getBestEmployeeSelection availableUnderScheduled shiftType
          priorityCount employeeStats strategy date
      else []
    if selected.length < requiredCount then
      let remainingAvailable := availableEmployees.filter
        (fun e => !(selected.contains e))
      let remainingCount := requiredCount - selected.length
      if remainingAvailable.length > 0 then
        selected ++ RuleEngineV1.getBestEmployeeSelection remainingAvailable shiftType
          remainingCount employeeStats strategy date
      else selected
    else selected

/-! ### Concrete inputs used by the instance parts of the claims -/

/-- Employee `E` works a `day` shift on days 1-4 of the month, nothing else. -/
def schedDays1to4 : ScheduleData := fun d =>
  if 1 ≤ d ∧ d ≤ 4 then [⟨"E", Shift.day⟩] else []

/-- A 30-day month over `schedDays1to4`, no holidays, no availability map. -/
def ctxDays1to4 : Context := ⟨schedDays1to4, 30, none, none, shiftTag⟩

/-- Employee `E` works `weekend-night` on day 5 and `day` on day 6. -/
def schedNight5Day6 : ScheduleData := fun d =>
  if d = 5 then [⟨"E", Shift.weekendNight⟩]
  else if d = 6 then [⟨"E", Shift.day⟩] else []

/-- A 30-day month over `schedNight5Day6` where only day 5 is a holiday. -/
def ctxNight5Day6 : Context := ⟨schedNight5Day6, 30, some (fun d => d == 5), none, shiftTag⟩

/-- Employee `E` works a `day` shift on days 1-3 only. -/
def schedDays1to3 : ScheduleData := fun d =>
  if 1 ≤ d ∧ d ≤ 3 then [⟨"E", Shift.day⟩] else []

/-- A 30-day month over `schedDays1to3`. -/
def ctxDays1to3 : Context := ⟨schedDays1to3, 30, none, none, shiftTag⟩

/-- Employee `E` works a `day` shift on days 1-10 only. -/
def schedDays1to10 : ScheduleData := fun d =>
  if 1 ≤ d ∧ d ≤ 10 then [⟨"E", Shift.day⟩] else []

/-- A 30-day month over `schedDays1to10`. -/
def ctxDays1to10 : Context := ⟨schedDays1to10, 30, none, none, shiftTag⟩

/-- Employee `E` works a `day` shift on days 1-15 only. -/
def schedDays1to15 : ScheduleData := fun d =>
  if 1 ≤ d ∧ d ≤ 15 then [⟨"E", Shift.day⟩] else []

/-- Statistics `{A: totalShifts 5, B: totalShifts 1, C: totalShifts 3}`. -/
def statsABC : Stats := [("A", ⟨5, 0, 0⟩), ("B", ⟨1, 0, 0⟩), ("C", ⟨3, 0, 0⟩)]

/-- Two employees with identical (all-zero) statistics. -/
def statsEqual : Stats := [("A", ⟨0, 0, 0⟩), ("B", ⟨0, 0, 0⟩)]

/-- Models `A` has 0 total shifts, `B` has 10 (mean 5, so only `A` is below it). -/
def statsSkew : Stats := [("A", ⟨0, 0, 0⟩), ("B", ⟨10, 0, 0⟩)]

/-! ### General lemmas about the embedded list helpers -/

theorem length_insertBy (lt : α → α → Bool) (x : α) (l : List α) :
    (insertBy lt x l).length = l.length + 1 := by
  induction l with
  | nil => rfl
  | cons y ys ih => by_cases h : lt y x <;> simp [insertBy, h, ih]

theorem length_sortBy (lt : α → α → Bool) (l : List α) :
    (sortBy lt l).length = l.length := by
  induction l with
  | nil => rfl
  | cons x xs ih => simp [sortBy, length_insertBy, ih]

theorem mem_insertBy {lt : α → α → Bool} {x y : α} {l : List α} :
    y ∈ insertBy lt x l ↔ y = x ∨ y ∈ l := by
  induction l with
  | nil => simp [insertBy]
  | cons z zs ih => by_cases h : lt z x <;> simp [insertBy, h, ih] <;> tauto

theorem mem_sortBy {lt : α → α → Bool} {y : α} {l : List α} :
    y ∈ sortBy lt l ↔ y ∈ l := by
  induction l with
  | nil => simp [sortBy]
  | cons x xs ih => simp [sortBy, mem_insertBy, ih]

theorem length_jsRotate (l : List α) (k : Nat) : (jsRotate l k).length = l.length := by
  simp [jsRotate]; omega

theorem mem_jsRotate {l : List α} {k : Nat} {y : α} : y ∈ jsRotate l k ↔ y ∈ l := by
  unfold jsRotate
  rw [List.mem_append, Or.comm, ← List.mem_append, List.take_append_drop]

theorem sortBy_eq_self_of_no_lt (lt : α → α → Bool) (l : List α)
    (h : ∀ a ∈ l, ∀ b ∈ l, lt a b = false) : sortBy lt l = l := by
  induction l with
  | nil => rfl
  | cons x xs ih =>
    have hx : sortBy lt xs = xs :=
      ih (fun a ha b hb => h a (List.mem_cons_of_mem x ha) b (List.mem_cons_of_mem x hb))
    cases xs with
    | nil => simp [sortBy, insertBy]
    | cons y ys =>
      show insertBy lt x (sortBy lt (y :: ys)) = x :: y :: ys
      rw [hx]
      simp [insertBy, h y (by simp) x (by simp)]

theorem collect_eq_zero (f : α → Nat × List Finding) (l : List α)
    (h : ∀ x, f x = (0, [])) : collect f l = (0, []) := by
  induction l with
  | nil => rfl
  | cons x xs ih => simp [collect, h, ih]

/-! ### C2: the minimum-gap rule -/

/-- C2 counterexample: `hasEnoughShiftGap('day', 'day', false, false)` is
`false` (forward cyclic distance 0, not greater than 1), yet `(day, day)` is
not among the three pairs the claim lists as the only insufficient weekday
pairs — so the claim's enumeration of insufficient pairs is incomplete. -/
theorem hasEnoughShiftGap_same_shift_insufficient :
    hasEnoughShiftGap Shift.day Shift.day false false = false
      ∧ (Shift.day, Shift.day) ∉ [(Shift.day, Shift.evening),
          (Shift.evening, Shift.night), (Shift.night, Shift.day)] := by
  decide

/-- C2 (amended): `hasEnoughShiftGap` returns `true` exactly when the two
holiday flags differ, either shift is `off`, both days are holidays, either
shift is missing from the weekday order, or the forward cyclic distance
`(posB - posA + 3) % 3` exceeds 1; equivalently, it returns `false` exactly
for same-holiday weekday pairs among the three adjacent pairs
(day→evening, evening→night, night→day) **and** the three same-shift pairs
(day→day, evening→evening, night→night), whose distance is 0. -/
theorem hasEnoughShiftGap_characterization :
    ∀ (a b : Shift) (hA hB : Bool),
      (hasEnoughShiftGap a b hA hB = true ↔
        (hA ≠ hB ∨ a = Shift.off ∨ b = Shift.off ∨ (hA = true ∧ hB = true)
          ∨ jsIndexOf WEEKDAY_SHIFT_ORDER a = -1
          ∨ jsIndexOf WEEKDAY_SHIFT_ORDER b = -1
          ∨ 1 < (jsIndexOf WEEKDAY_SHIFT_ORDER b - jsIndexOf WEEKDAY_SHIFT_ORDER a + 3) % 3))
      ∧ (hasEnoughShiftGap a b hA hB = false ↔
        (hA = hB ∧ hA = false ∧
          (a, b) ∈ [(Shift.day, Shift.evening), (Shift.evening, Shift.night),
            (Shift.night, Shift.day), (Shift.day, Shift.day),
            (Shift.evening, Shift.evening), (Shift.night, Shift.night)])) := by
  decide

/-- Witness for C2's amended theorem at a concrete input: a two-step jump
(day→night on weekdays) is sufficient. -/
theorem hasEnoughShiftGap_characterization_witness :
    hasEnoughShiftGap Shift.day Shift.night false false = true ↔
      ((false : Bool) ≠ false ∨ Shift.day = Shift.off ∨ Shift.night = Shift.off
        ∨ ((false : Bool) = true ∧ (false : Bool) = true)
        ∨ jsIndexOf WEEKDAY_SHIFT_ORDER Shift.day = -1
        ∨ jsIndexOf WEEKDAY_SHIFT_ORDER Shift.night = -1
        ∨ 1 < (jsIndexOf WEEKDAY_SHIFT_ORDER Shift.night
                - jsIndexOf WEEKDAY_SHIFT_ORDER Shift.day + 3) % 3) :=
  (hasEnoughShiftGap_characterization Shift.day Shift.night false false).1

/-! ### C9: the consecutive-work-day lookback -/

theorem calcConsecGo_le (w : Int → Bool) (d : Int) (n : Nat) :
    calcConsecGo w d n ≤ n := by
  induction n generalizing d with
  | zero => simp [calcConsecGo]
  | succ n ih =>
    by_cases h : w d
    · simp only [calcConsecGo, h, if_true]
      exact Nat.succ_le_succ (ih (d - 1))
    · simp [calcConsecGo, h]

theorem calcConsecGo_worked (w : Int → Bool) (d : Int) (n : Nat) :
    ∀ i : Nat, i < calcConsecGo w d n → w (d - i) = true := by
  induction n generalizing d with
  | zero => intro i hi; simp [calcConsecGo] at hi
  | succ n ih =>
    intro i hi
    by_cases h : w d
    · simp only [calcConsecGo, h, if_true] at hi
      cases i with
      | zero => simpa using h
      | succ j =>
        have hj : j < calcConsecGo w (d - 1) n := by omega
        have := ih (d - 1) j hj
        have harith : d - 1 - (j : Int) = d - ((j : Nat) + 1 : Nat) := by push_cast; ring
        rw [← harith]
        exact this
    · simp [calcConsecGo, h] at hi

theorem calcConsecGo_stop (w : Int → Bool) (d : Int) (n : Nat)
    (h : calcConsecGo w d n < n) : w (d - calcConsecGo w d n) = false := by
  induction n generalizing d with
  | zero => omega
  | succ n ih =>
    by_cases hw : w d
    · simp only [calcConsecGo, hw, if_true] at h ⊢
      have h' : calcConsecGo w (d - 1) n < n := by omega
      have := ih (d - 1) h'
      have harith : d - 1 - (calcConsecGo w (d - 1) n : Int)
          = d - ((calcConsecGo w (d - 1) n + 1 : Nat) : Int) := by push_cast; ring
      rw [← harith]
      exact this
    · simp only [calcConsecGo, hw, if_false]
      simpa using hw

theorem calcConsecGo_congr (w w' : Int → Bool) (d : Int) (n : Nat)
    (h : ∀ x : Int, x ≤ d → w x = w' x) : calcConsecGo w d n = calcConsecGo w' d n := by
  induction n generalizing d with
  | zero => rfl
  | succ n ih =>
    have hd := h d le_rfl
    have ih' := ih (d - 1) (fun x hx => h x (by omega))
    simp only [calcConsecGo, hd, ih']

/-- C9 counterexample: with 15 consecutive worked days (days 1-15) before
target day 16, the lookback returns its 14-day cap rather than the length of
the run ending the day before the target. -/
theorem calculateConsecutiveWorkDays_cap_counterexample :
    RuleEngine.calculateConsecutiveWorkDays "E" 16 schedDays1to15 = 14
      ∧ (intRange 1 15).all (worksOn schedDays1to15 "E") = true
      ∧ worksOn schedDays1to15 "E" 0 = false
      ∧ (14 : Nat) ≠ 15 := by
  refine ⟨by decide, by decide, by decide, by decide⟩

/-- C9 (amended): `calculateConsecutiveWorkDays` counts the consecutive run
of worked (non-`off`) days ending on the day immediately before
`targetDate`, capped at 14: the result `r` is at most 14, days
`targetDate - 1 .. targetDate - r` are all worked, if `r < 14` the day
`targetDate - r - 1` is not worked (the scan stopped there), and the
assignment on `targetDate` itself or any later date never affects the
result. -/
theorem calculateConsecutiveWorkDays_lookback_spec (e : String) (t : Int)
    (sched : ScheduleData) :
    RuleEngine.calculateConsecutiveWorkDays e t sched ≤ 14
    ∧ (∀ i : Nat, 1 ≤ i → i ≤ RuleEngine.calculateConsecutiveWorkDays e t sched →
        worksOn sched e (t - i) = true)
    ∧ (RuleEngine.calculateConsecutiveWorkDays e t sched < 14 →
        worksOn sched e (t - RuleEngine.calculateConsecutiveWorkDays e t sched - 1) = false)
    ∧ (∀ sched' : ScheduleData, (∀ d : Int, d < t → sched' d = sched d) →
        RuleEngine.calculateConsecutiveWorkDays e t sched'
          = RuleEngine.calculateConsecutiveWorkDays e t sched) := by
  refine ⟨calcConsecGo_le _ _ _, ?_, ?_, ?_⟩
  · intro i h1 h2
    have hi : i - 1 < calcConsecGo (worksOn sched e) (t - 1) 14 := by
      unfold RuleEngine.calculateConsecutiveWorkDays at h2; omega
    have := calcConsecGo_worked (worksOn sched e) (t - 1) 14 (i - 1) hi
    have harith : t - 1 - ((i - 1 : Nat) : Int) = t - (i : Int) := by
      have : (1 : Nat) ≤ i := h1
      push_cast [this]
      ring
    rw [harith] at this
    exact this
  · intro h
    have := calcConsecGo_stop (worksOn sched e) (t - 1) 14 h
    have harith : t - 1 - ((calcConsecGo (worksOn sched e) (t - 1) 14 : Nat) : Int)
        = t - (RuleEngine.calculateConsecutiveWorkDays e t sched : Int) - 1 := by
      unfold RuleEngine.calculateConsecutiveWorkDays
      ring
    rw [harith] at this
    exact this
  · intro sched' hagree
    apply calcConsecGo_congr
    intro x hx
    unfold worksOn
    rw [hagree x (by omega)]

/-- Witness for C9's amended theorem: with target day 10 over
`schedDays1to15` the lookback stops inside the 14-day budget, and day
`10 - 3 = 7` is indeed worked. -/
theorem calculateConsecutiveWorkDays_lookback_spec_witness :
    (1 : Nat) ≤ 3 ∧ worksOn schedDays1to15 "E" (10 - (3 : Nat)) = true := by
  refine ⟨by decide, ?_⟩
  have h := (calculateConsecutiveWorkDays_lookback_spec "E" 10 schedDays1to15).2.1 3
    (by decide) (by decide)
  exact h

/-! ### C10: the small-pool early return of the selection entry points -/

/-- C10: whenever the available pool is no larger than the required
headcount, all three selection entry points return the pool unchanged (no
strategy ranking, no fairness phase). -/
theorem selection_small_pool_returns_pool (avail : List String) (sh : Shift)
    (req : Nat) (stats : Stats) (allEmployees : List String) (strategy : String)
    (date : Option Nat) (h : avail.length ≤ req) :
    RuleEngine.selectEmployeesWithFairness avail sh req stats allEmployees strategy date = avail
    ∧ RuleEngineV1.getBestEmployeeSelection avail sh req stats strategy date = avail
    ∧ RuleEngineV1.selectEmployeesWithFairness avail sh req stats allEmployees strategy date
        = avail := by
  refine ⟨?_, ?_, ?_⟩
  · unfold RuleEngine.selectEmployeesWithFairness
    rw [if_pos h]
  · unfold RuleEngineV1.getBestEmployeeSelection
    rw [if_pos h]
  · unfold RuleEngineV1.selectEmployeesWithFairness
    rw [if_pos h]

/-- Witness for C10 at a concrete input: a pool of one employee with two
required slots is returned unchanged by all three entry points. -/
theorem selection_small_pool_returns_pool_witness :
    [("A" : String)].length ≤ 2
    ∧ RuleEngine.selectEmployeesWithFairness ["A"] Shift.day 2 statsABC ["A"] "balanced" none
        = ["A"]
    ∧ RuleEngineV1.getBestEmployeeSelection ["A"] Shift.day 2 statsABC "balanced" none = ["A"]
    ∧ RuleEngineV1.selectEmployeesWithFairness ["A"] Shift.day 2 statsABC ["A"] "balanced" none
        = ["A"] := by
  have h := selection_small_pool_returns_pool ["A"] Shift.day 2 statsABC ["A"] "balanced" none
    (by decide)
  exact ⟨by decide, h.1, h.2.1, h.2.2⟩

/-! ### C6: non-numeric rule values -/

/-- C6 counterexample: `checkShiftBalance` does **not** treat a non-numeric
value as "rule disabled": `parseInt(rule.value, 10) || 2` falls back to the
default maximum difference 2, so employee `E` with three `day` shifts and no
night shifts yields one conflict, not zero. -/
theorem balanceShifts_nonNumeric_counterexample :
    (checkShiftBalance ⟨"balanceShifts", "E", none⟩ ctxDays1to3).1 = 1
      ∧ (checkShiftBalance ⟨"balanceShifts", "E", none⟩ ctxDays1to3).1 ≠ 0 := by
  refine ⟨by decide, by decide⟩

/-- C6 (amended): a non-numeric rule value disables the
`maxConsecutiveWorkDays` and `minStaff` checks (zero conflicts, no
highlights for every schedule), but `balanceShifts` instead falls back to
the default maximum difference 2 and behaves exactly as if the configured
value were 2. -/
theorem nonNumeric_value_rule_spec (ctx : Context) (t e t' : String) (sh : Shift) :
    checkMaxConsecutiveWorkDays ⟨t, e, none⟩ ctx = (0, [])
    ∧ checkMinStaff ⟨t', sh, none⟩ ctx = (0, [])
    ∧ checkShiftBalance ⟨t, e, none⟩ ctx = checkShiftBalance ⟨t, e, some 2⟩ ctx := by
  refine ⟨rfl, ?_, ?_⟩
  · unfold checkMinStaff
    exact collect_eq_zero _ _ (fun d => by simp [jsLtValue])
  · unfold checkShiftBalance
    simp [balanceMaxDifference]

/-! ### C8: the `balanced` strategy ordering -/

/-- C8 counterexample: with two employees of identical statistics and a
`day` slot, both revisions keep the input order `["B", "A"]` on a
`totalShifts` tie (stable sort; the earlier revision's comparator returns
`balanceB - balanceA = 0` for day slots and never reaches `localeCompare`),
so the tie is **not** broken alphabetically — the claim would require
`["A"]`. -/
theorem balanced_tie_not_alphabetical_counterexample :
    RuleEngineV1.getBestEmployeeSelection ["B", "A"] Shift.day 1 statsEqual "balanced" none
        = ["B"]
      ∧ RuleEngine.selectEmployeesWithFairness ["B", "A"] Shift.day 1 statsEqual ["A", "B"]
          "balanced" none = ["B"]
      ∧ totalOf statsEqual "A" = totalOf statsEqual "B"
      ∧ nightOf statsEqual "A" - dayOf statsEqual "A"
          = nightOf statsEqual "B" - dayOf statsEqual "B"
      ∧ jsStrLt "A" "B" = true := by
  refine ⟨by decide, by decide, by decide, by decide, by decide⟩

/-- C8 (amended): the `balanced` strategy sorts ascending by `totalShifts`;
in the later revision ties simply keep the input order (its comparator looks
at `totalShifts` only and the sort is stable), so with all-equal statistics
the selection is the first `requiredCount` of the input pool; and on the
claim's instance (`A:5, B:1, C:3`, two slots) both revisions return
`["B", "C"]` in that order. -/
theorem balanced_selection_spec :
    RuleEngine.selectEmployeesWithFairness ["A", "B", "C"] Shift.day 2 statsABC
        ["A", "B", "C"] "balanced" none = ["B", "C"]
    ∧ RuleEngineV1.getBestEmployeeSelection ["A", "B", "C"] Shift.day 2 statsABC
        "balanced" none = ["B", "C"]
    ∧ (∀ (stats : Stats) (avail : List String) (req : Nat) (allEmployees : List String)
        (date : Option Nat),
        (∀ a ∈ avail, ∀ b ∈ avail, totalOf stats a = totalOf stats b) →
        RuleEngine.selectEmployeesWithFairness avail Shift.day req stats allEmployees
          "balanced" date = avail.take req) := by
  refine ⟨by decide, by decide, ?_⟩
  intro stats avail req allEmployees date h
  unfold RuleEngine.selectEmployeesWithFairness
  by_cases hle : avail.length ≤ req
  · rw [if_pos hle, List.take_of_length_le hle]
  · rw [if_neg hle]
    have hsort : sortBy (totalLt stats) avail = avail :=
      sortBy_eq_self_of_no_lt _ _ (fun a ha b hb => by simp [totalLt, h a ha b hb])
    simp [hsort]

/-- Witness for C8's amended theorem: with all-equal statistics the later
revision returns the first element of the input pool unchanged. -/
theorem balanced_selection_spec_witness :
    RuleEngine.selectEmployeesWithFairness ["B", "A"] Shift.day 1 statsEqual []
        "balanced" none = (["B", "A"].take 1 : List String) :=
  balanced_selection_spec.2.2 statsEqual ["B", "A"] 1 [] none (by decide)

/-! ### C4: the no-24-hour-turnaround check -/

/-- The night-class shift of a day, by that day's own holiday flag
(`prevIsHoliday ? ['weekend-night'] : ['night']`). -/
def nightClassOn (ctx : Context) (d : Int) : Shift :=
  if isHoliday d ctx.holidayDates then Shift.weekendNight else Shift.night

/-- The day-class shift of a day, by that day's own holiday flag
(`currentIsHoliday ? ['weekend-day'] : ['day']`). -/
def dayClassOn (ctx : Context) (d : Int) : Shift :=
  if isHoliday d ctx.holidayDates then Shift.weekendDay else Shift.day

/-- Whether `employee` is assigned shift `sh` on day `d`. -/
def worksShiftOn (sched : ScheduleData) (employee : String) (sh : Shift) (d : Int) : Bool :=
  (sched d).any (fun s => s.employee == employee && s.shift == sh)

theorem collect_congr (f f' : α → Nat × List Finding) (l : List α)
    (h : ∀ x ∈ l, f x = f' x) : collect f l = collect f' l := by
  induction l with
  | nil => rfl
  | cons x xs ih =>
    simp only [collect, h x (by simp), ih (fun y hy => h y (List.mem_cons_of_mem x hy))]

theorem collect_if_count (p : α → Bool) (g : α → List Finding) (l : List α) :
    collect (fun x => if p x then (1, g x) else (0, [])) l
      = ((l.filter p).length, (l.filter p).flatMap g) := by
  induction l with
  | nil => rfl
  | cons x xs ih =>
    by_cases h : p x <;> simp [collect, h, ih, List.filter_cons] <;> omega

/-- The per-day conflict condition of `checkNo24HourShift`: the employee
worked the previous day's night-class shift and the current day's day-class
shift, each class chosen by its own day's holiday flag. -/
def turnaroundConflictOn (ctx : Context) (employee : String) (d : Int) : Bool :=
  worksShiftOn ctx.scheduleData employee (nightClassOn ctx (d - 1)) (d - 1)
    && worksShiftOn ctx.scheduleData employee (dayClassOn ctx d) d

/-- C4: for every day `d` of the month, `checkNo24HourShift` counts one
conflict exactly when the employee worked day `d-1`'s night-class shift
(by day `d-1`'s holiday flag) and day `d`'s day-class shift (by day `d`'s
holiday flag); each such day contributes the highlight pair `[d, d-1]`
(conflict on `d`, secondary marker on `d-1`).  On the claim's instance —
`weekend-night` on holiday day 5 then `day` on non-holiday day 6 — exactly
one conflict is reported, on day 6, with the secondary marker on day 5. -/
theorem checkNo24HourShift_spec (emp : String) (v : Option Int) (ctx : Context) :
    (checkNo24HourShift ⟨"no24HourShift", emp, v⟩ ctx).1
        = ((intRange 1 ctx.daysInMonth).filter (turnaroundConflictOn ctx emp)).length
    ∧ (checkNo24HourShift ⟨"no24HourShift", emp, v⟩ ctx).2.map Finding.date
        = ((intRange 1 ctx.daysInMonth).filter (turnaroundConflictOn ctx emp)).flatMap
            (fun d => [d, d - 1])
    ∧ (checkNo24HourShift ⟨"no24HourShift", "E", none⟩ ctxNight5Day6).1 = 1
    ∧ (checkNo24HourShift ⟨"no24HourShift", "E", none⟩ ctxNight5Day6).2.map Finding.date
        = [6, 5] := by
  have hbody : checkNo24HourShift ⟨"no24HourShift", emp, v⟩ ctx
      = (((intRange 1 ctx.daysInMonth).filter (turnaroundConflictOn ctx emp)).length,
        ((intRange 1 ctx.daysInMonth).filter (turnaroundConflictOn ctx emp)).flatMap
          (fun d => [⟨d, emp ++ " 24小時連續工作 (" ++ formatDate (d - 1) ++ " 夜班 → "
              ++ formatDate d ++ " 白班)"⟩,
            (⟨d - 1, emp ++ " 夜班後隔天接白班"⟩ : Finding)])) := by
    unfold checkNo24HourShift
    rw [collect_congr _ (fun d =>
      if turnaroundConflictOn ctx emp d then
        ((1 : Nat), [⟨d, emp ++ " 24小時連續工作 (" ++ formatDate (d - 1) ++ " 夜班 → "
            ++ formatDate d ++ " 白班)"⟩,
          (⟨d - 1, emp ++ " 夜班後隔天接白班"⟩ : Finding)])
      else (0, [])) _ ?_]
    · exact collect_if_count _ _ _
    · intro d _
      by_cases h1 : isHoliday (d - 1) ctx.holidayDates
        <;> by_cases h2 : isHoliday d ctx.holidayDates
        <;> simp [turnaroundConflictOn, worksShiftOn, nightClassOn, dayClassOn, h1, h2,
          List.contains]
  refine ⟨by rw [hbody], ?_, by decide, by decide⟩
  rw [hbody]
  simp [List.map_flatMap]

/-! ### C1: the validate entry point -/

/-- The conflict-count contribution of one configured employee rule: what its
registered handler returns, or 0 when its tag has no registered handler. -/
def employeeRuleConflicts (ctx : Context) (r : EmployeeRule) : Nat :=
  match employeeRuleHandlers r.type with
  | some h => (h r ctx).1
  | none => 0

/-- The conflict-count contribution of one configured shift rule. -/
def shiftRuleConflicts (ctx : Context) (r : ShiftRule) : Nat :=
  match shiftRuleHandlers r.type with
  | some h => (h r ctx).1
  | none => 0

theorem employee_step_eq (ctx : Context) (acc : Nat) (r : EmployeeRule) :
    (match employeeRuleHandlers r.type with
      | some h => acc + (h r ctx).1
      | none => acc) = acc + employeeRuleConflicts ctx r := by
  unfold employeeRuleConflicts
  cases employeeRuleHandlers r.type with
  | none => simp
  | some h => rfl

theorem shift_step_eq (ctx : Context) (acc : Nat) (r : ShiftRule) :
    (match shiftRuleHandlers r.type with
      | some h => acc + (h r ctx).1
      | none => acc) = acc + shiftRuleConflicts ctx r := by
  unfold shiftRuleConflicts
  cases shiftRuleHandlers r.type with
  | none => simp
  | some h => rfl

theorem foldl_employee_rules_plain (ctx : Context) (l : List EmployeeRule) (n : Nat) :
    List.foldl (fun acc r => acc + employeeRuleConflicts ctx r) n l
      = n + (l.map (employeeRuleConflicts ctx)).sum := by
  induction l generalizing n with
  | nil => simp
  | cons r rs ih =>
    simp only [List.foldl_cons, List.map_cons, List.sum_cons, ih]
    omega

theorem foldl_shift_rules_plain (ctx : Context) (l : List ShiftRule) (n : Nat) :
    List.foldl (fun acc r => acc + shiftRuleConflicts ctx r) n l
      = n + (l.map (shiftRuleConflicts ctx)).sum := by
  induction l generalizing n with
  | nil => simp
  | cons r rs ih =>
    simp only [List.foldl_cons, List.map_cons, List.sum_cons, ih]
    omega

theorem foldl_employee_rules (ctx : Context) (l : List EmployeeRule) (n : Nat) :
    List.foldl (fun acc r =>
      match employeeRuleHandlers r.type with
      | some h => acc + (h r ctx).1
      | none => acc) n l = n + (l.map (employeeRuleConflicts ctx)).sum := by
  have hf : (fun (acc : Nat) (r : EmployeeRule) =>
      match employeeRuleHandlers r.type with
      | some h => acc + (h r ctx).1
      | none => acc) = fun acc r => acc + employeeRuleConflicts ctx r :=
    funext fun acc => funext fun r => employee_step_eq ctx acc r
  rw [hf, foldl_employee_rules_plain]

theorem foldl_shift_rules (ctx : Context) (l : List ShiftRule) (n : Nat) :
    List.foldl (fun acc r =>
      match shiftRuleHandlers r.type with
      | some h => acc + (h r ctx).1
      | none => acc) n l = n + (l.map (shiftRuleConflicts ctx)).sum := by
  have hf : (fun (acc : Nat) (r : ShiftRule) =>
      match shiftRuleHandlers r.type with
      | some h => acc + (h r ctx).1
      | none => acc) = fun acc r => acc + shiftRuleConflicts ctx r :=
    funext fun acc => funext fun r => shift_step_eq ctx acc r
  rw [hf, foldl_shift_rules_plain]

theorem foldl_system_rules (ctx : Context) (l : List (Context → Nat × List Finding)) (n : Nat) :
    List.foldl (fun acc h => acc + (h ctx).1) n l
      = n + (l.map (fun h => (h ctx).1)).sum := by
  induction l generalizing n with
  | nil => simp
  | cons h hs ih =>
    simp only [List.foldl_cons, List.map_cons, List.sum_cons, ih]
    exact Nat.add_assoc _ _ _

/-- A sample rule configuration: one registered employee tag, one unknown
employee tag, one registered shift tag. -/
def condsSample : SchedulingConditions :=
  ⟨[⟨"maxConsecutiveWorkDays", "E", some 3⟩, ⟨"unknownRule", "E", some 1⟩],
    [⟨"minStaff", Shift.day, some 1⟩]⟩

/-- C1: `validate` returns `isValid` true exactly when `totalConflicts` is
zero, and `totalConflicts` is exactly the sum of the registered employee-rule
handlers' counts plus the registered shift-rule handlers' counts plus every
system handler's count; a configured rule whose tag has no registered
handler contributes zero (and, the model being total, no error is raised). -/
theorem validate_sums_handler_conflicts (conds : SchedulingConditions) (ctx : Context) :
    (RuleEngine.validate conds ctx).totalConflicts
        = (conds.employeeRules.map (employeeRuleConflicts ctx)).sum
          + (conds.shiftRules.map (shiftRuleConflicts ctx)).sum
          + (systemRuleHandlers.map (fun h => (h ctx).1)).sum
    ∧ ((RuleEngine.validate conds ctx).isValid = true
        ↔ (RuleEngine.validate conds ctx).totalConflicts = 0)
    ∧ (∀ r : EmployeeRule, employeeRuleHandlers r.type = none →
        employeeRuleConflicts ctx r = 0)
    ∧ (∀ r : ShiftRule, shiftRuleHandlers r.type = none → shiftRuleConflicts ctx r = 0) := by
  have htotal : (RuleEngine.validate conds ctx).totalConflicts
      = (conds.employeeRules.map (employeeRuleConflicts ctx)).sum
        + (conds.shiftRules.map (shiftRuleConflicts ctx)).sum
        + (systemRuleHandlers.map (fun h => (h ctx).1)).sum := by
    simp only [RuleEngine.validate]
    rw [foldl_employee_rules, foldl_shift_rules, foldl_system_rules]
    ring
  refine ⟨htotal, ?_, ?_, ?_⟩
  · simp only [RuleEngine.validate]
    simp [beq_iff_eq]
  · intro r h
    unfold employeeRuleConflicts
    rw [h]
  · intro r h
    unfold shiftRuleConflicts
    rw [h]

/-- Witness for C1 at a concrete configuration (one registered employee
tag, one unknown tag, one shift tag) over the days-1-to-4 schedule. -/
theorem validate_sums_handler_conflicts_witness :
    (RuleEngine.validate condsSample ctxDays1to4).totalConflicts
        = (condsSample.employeeRules.map (employeeRuleConflicts ctxDays1to4)).sum
          + (condsSample.shiftRules.map (shiftRuleConflicts ctxDays1to4)).sum
          + (systemRuleHandlers.map (fun h => (h ctxDays1to4).1)).sum
      ∧ employeeRuleHandlers "unknownRule" = none :=
  ⟨(validate_sums_handler_conflicts condsSample ctxDays1to4).1, by rfl⟩

/-! ### C7: the shift-balance rule -/

theorem mem_rangeN {d a : Int} {n : Nat} : d ∈ rangeN a n ↔ a ≤ d ∧ d < a + n := by
  induction n generalizing a with
  | zero => simp [rangeN]
  | succ n ih =>
    simp only [rangeN, List.mem_cons, ih]
    push_cast
    omega

theorem mem_intRange {d lo hi : Int} : d ∈ intRange lo hi ↔ lo ≤ d ∧ d ≤ hi := by
  unfold intRange
  rw [mem_rangeN]
  omega

theorem lastMatch_spec (p : Int → Bool) (n : Nat) :
    (lastMatch p n = none → ∀ d : Int, 1 ≤ d → d ≤ n → p d = false)
    ∧ (∀ dd : Int, lastMatch p n = some dd →
        1 ≤ dd ∧ dd ≤ n ∧ p dd = true
          ∧ ∀ d : Int, dd < d → d ≤ n → p d = false) := by
  induction n with
  | zero =>
    refine ⟨fun _ d h1 h2 => by omega, fun dd h => by simp [lastMatch] at h⟩
  | succ n ih =>
    by_cases hp : p ((n : Int) + 1)
    · refine ⟨fun h => ?_, fun dd h => ?_⟩
      · simp [lastMatch, hp] at h
      · simp only [lastMatch, hp, if_true, Option.some.injEq] at h
        subst h
        refine ⟨by omega, by push_cast; omega, hp, fun d h1 h2 => by push_cast at h2; omega⟩
    · refine ⟨fun h d h1 h2 => ?_, fun dd h => ?_⟩
      · simp only [lastMatch, hp, if_false] at h
        push_cast at h2
        rcases eq_or_lt_of_le h2 with heq | hlt
        · rw [heq]
          simpa using hp
        · exact ih.1 h d h1 (by omega)
      · simp only [lastMatch, hp, if_false] at h
        obtain ⟨hd1, hd2, hd3, hd4⟩ := ih.2 dd h
        refine ⟨hd1, by push_cast; omega, hd3, fun d h1 h2 => ?_⟩
        push_cast at h2
        rcases eq_or_lt_of_le h2 with heq | hlt
        · rw [heq]
          simpa using hp
        · exact hd4 d h1 (by omega)

theorem countShiftsInMonth_pos (ctx : Context) (e : String) (classes : List Shift)
    (h : 0 < countShiftsInMonth ctx e classes) :
    ∃ d : Int, 1 ≤ d ∧ d ≤ ctx.daysInMonth
      ∧ (ctx.scheduleData d).any (fun s => s.employee == e && classes.contains s.shift)
          = true := by
  unfold countShiftsInMonth at h
  by_contra hc
  push_neg at hc
  have hall : ∀ x ∈ ((intRange 1 ctx.daysInMonth).map (fun d =>
      ((ctx.scheduleData d).filter
        (fun s => s.employee == e && classes.contains s.shift)).length)), x = 0 := by
    intro x hx
    obtain ⟨d, hd, hxd⟩ := List.mem_map.mp hx
    obtain ⟨hd1, hd2⟩ := mem_intRange.mp hd
    have hany := hc d hd1 hd2
    rw [← hxd]
    by_contra hne
    have hpos : 0 < ((ctx.scheduleData d).filter
        (fun s => s.employee == e && classes.contains s.shift)).length :=
      Nat.pos_of_ne_zero hne
    obtain ⟨s, hs⟩ := List.exists_mem_of_length_pos hpos
    obtain ⟨hmem, hpred⟩ := List.mem_filter.mp hs
    have : ((ctx.scheduleData d).any
        (fun s => s.employee == e && classes.contains s.shift)) = true := by
      rw [List.any_eq_true]
      exact ⟨s, hmem, hpred⟩
    exact hany this
  exact absurd (List.sum_eq_zero_iff.mpr hall) (by omega)

/-- The numerically dominant shift class of the employee over the month
(`dayShiftCount > nightShiftCount ? ['day', 'weekend-day'] :
['night', 'weekend-night']`). -/
def dominantShiftClasses (ctx : Context) (e : String) : List Shift :=
  if countShiftsInMonth ctx e [Shift.day, Shift.weekendDay]
      > countShiftsInMonth ctx e [Shift.night, Shift.weekendNight] then
    [Shift.day, Shift.weekendDay]
  else [Shift.night, Shift.weekendNight]

/-- Whether the employee has a dominant-class assignment on day `d`. -/
def dominantOn (ctx : Context) (e : String) (d : Int) : Bool :=
  (ctx.scheduleData d).any
    (fun s => s.employee == e && (dominantShiftClasses ctx e).contains s.shift)

/-- C7: when `|dayCount - nightCount|` exceeds the configured maximum
difference (default 2 via `parseInt(value) || 2`) and at least one count is
nonzero, `checkShiftBalance` records exactly one conflict for the employee
for the whole month, and attaches its single finding to the latest in-month
date on which the employee has an assignment of the numerically dominant
class (the backward scan from month end). -/
theorem checkShiftBalance_spec (t e : String) (v : Option Int) (ctx : Context)
    (hcond : ((countShiftsInMonth ctx e [Shift.day, Shift.weekendDay] : Int)
          - (countShiftsInMonth ctx e [Shift.night, Shift.weekendNight] : Int)).natAbs
          > balanceMaxDifference v
        ∧ (countShiftsInMonth ctx e [Shift.day, Shift.weekendDay] > 0
            ∨ countShiftsInMonth ctx e [Shift.night, Shift.weekendNight] > 0)) :
    (checkShiftBalance ⟨t, e, v⟩ ctx).1 = 1
    ∧ ∃ dd : Int,
        (checkShiftBalance ⟨t, e, v⟩ ctx).2.map Finding.date = [dd]
        ∧ 1 ≤ dd ∧ dd ≤ ctx.daysInMonth
        ∧ dominantOn ctx e dd = true
        ∧ ∀ d : Int, dd < d → d ≤ ctx.daysInMonth → dominantOn ctx e d = false := by
  have hdompos : 0 < countShiftsInMonth ctx e (dominantShiftClasses ctx e) := by
    unfold dominantShiftClasses
    by_cases hgt : countShiftsInMonth ctx e [Shift.day, Shift.weekendDay]
        > countShiftsInMonth ctx e [Shift.night, Shift.weekendNight]
    · rw [if_pos hgt]
      omega
    · rw [if_neg hgt]
      omega
  obtain ⟨d0, hd01, hd02, hd0any⟩ :=
    countShiftsInMonth_pos ctx e (dominantShiftClasses ctx e) hdompos
  have hex : ∃ dd, lastMatch (dominantOn ctx e) ctx.daysInMonth = some dd := by
    cases hlm : lastMatch (dominantOn ctx e) ctx.daysInMonth with
    | some dd => exact ⟨dd, rfl⟩
    | none =>
      refine absurd ((lastMatch_spec (dominantOn ctx e) ctx.daysInMonth).1 hlm d0 hd01 hd02) ?_
      unfold dominantOn
      rw [hd0any]
      simp
  obtain ⟨dd, hdd⟩ := hex
  obtain ⟨hb1, hb2, hb3, hb4⟩ :=
    (lastMatch_spec (dominantOn ctx e) ctx.daysInMonth).2 dd hdd
  have hres : checkShiftBalance ⟨t, e, v⟩ ctx
      = (1, [⟨dd, e ++ " 班次不平衡：白班"
          ++ toString (countShiftsInMonth ctx e [Shift.day, Shift.weekendDay]) ++ "次，夜班"
          ++ toString (countShiftsInMonth ctx e [Shift.night, Shift.weekendNight])
          ++ "次 (差距"
          ++ toString ((countShiftsInMonth ctx e [Shift.day, Shift.weekendDay] : Int)
              - (countShiftsInMonth ctx e [Shift.night, Shift.weekendNight] : Int)).natAbs
          ++ "，限制" ++ toString (balanceMaxDifference v) ++ ")"⟩]) := by
    unfold checkShiftBalance
    simp only []
    rw [if_pos hcond]
    unfold dominantOn dominantShiftClasses at hdd
    rw [hdd]
  rw [hres]
  exact ⟨rfl, dd, rfl, hb1, hb2, hb3, hb4⟩

/-- Witness for C7 at the claim's instance: ten `day` shifts (days 1-10),
no night shifts, `maxDifference = 2` — one conflict attached to day 10. -/
theorem checkShiftBalance_spec_witness :
    (checkShiftBalance ⟨"balanceShifts", "E", some 2⟩ ctxDays1to10).1 = 1
    ∧ ∃ dd : Int,
        (checkShiftBalance ⟨"balanceShifts", "E", some 2⟩ ctxDays1to10).2.map Finding.date
            = [dd]
        ∧ 1 ≤ dd ∧ dd ≤ ctxDays1to10.daysInMonth
        ∧ dominantOn ctxDays1to10 "E" dd = true
        ∧ ∀ d : Int, dd < d → d ≤ ctxDays1to10.daysInMonth →
            dominantOn ctxDays1to10 "E" d = false :=
  checkShiftBalance_spec "balanceShifts" "E" (some 2) ctxDays1to10 (by decide)

/-! ### C3: the max-consecutive-work-days check -/

/-- The running streak after the scan has processed days `a .. a+n-1`,
starting from an initial streak `v`: incremented on worked days, reset to 0
otherwise. -/
def streakVal (worked : Int → Bool) (v : Nat) (a : Int) : Nat → Nat
  | 0 => v
  | n + 1 => if worked (a + n) then streakVal worked v a n + 1 else 0

theorem streakVal_peel (worked : Int → Bool) (v : Nat) (a : Int) (n : Nat) :
    streakVal worked v a (n + 1)
      = streakVal worked (if worked a then v + 1 else 0) (a + 1) n := by
  induction n with
  | zero => simp [streakVal]
  | succ n ih =>
    have harith : a + ((n : Int) + 1) = (a + 1) + (n : Int) := by ring
    calc streakVal worked v a (n + 1 + 1)
        = if worked (a + ((n : Int) + 1)) then streakVal worked v a (n + 1) + 1 else 0 := by
          simp [streakVal]
      _ = if worked ((a + 1) + (n : Int)) then
            streakVal worked (if worked a then v + 1 else 0) (a + 1) n + 1 else 0 := by
          rw [harith, ih]
      _ = streakVal worked (if worked a then v + 1 else 0) (a + 1) (n + 1) := by
          simp [streakVal]

/-- The per-day conflict condition maintained by the scan of
`checkMaxConsecutiveWorkDays`, relative to a scan that started at day `a`
with initial streak `v`: the day is worked, the streak through that day
exceeds the threshold, and the day lies in the target month `1 .. M`. -/
def consecConflictPred (worked : Int → Bool) (N M a : Int) (v : Nat) (d : Int) : Bool :=
  worked d
    && decide (((streakVal worked v a (d + 1 - a).toNat : Nat) : Int) > N ∧ 1 ≤ d ∧ d ≤ M)

theorem maxConsecGo_spec (emp : String) (worked : Int → Bool) (N M : Int) :
    ∀ (n : Nat) (a : Int) (v : Nat),
      (maxConsecGo emp worked N M a n v).1
          = ((rangeN a n).filter (consecConflictPred worked N M a v)).length
      ∧ (maxConsecGo emp worked N M a n v).2.map Finding.date
          = (rangeN a n).filter (consecConflictPred worked N M a v) := by
  intro n
  induction n with
  | zero => exact fun a v => ⟨rfl, rfl⟩
  | succ n ih =>
    intro a v
    have hstep : ∀ d ∈ rangeN (a + 1) n,
        consecConflictPred worked N M a v d
          = consecConflictPred worked N M (a + 1) (if worked a then v + 1 else 0) d := by
      intro d hd
      have hge : a + 1 ≤ d := (mem_rangeN.mp hd).1
      have htn : (d + 1 - a).toNat = (d + 1 - (a + 1)).toNat + 1 := by omega
      unfold consecConflictPred
      rw [htn, streakVal_peel]
    have hfiltail : (rangeN (a + 1) n).filter (consecConflictPred worked N M a v)
        = (rangeN (a + 1) n).filter
            (consecConflictPred worked N M (a + 1) (if worked a then v + 1 else 0)) :=
      List.filter_congr hstep
    have hhead : consecConflictPred worked N M a v a
        = (worked a && decide (((v + 1 : Nat) : Int) > N ∧ 1 ≤ a ∧ a ≤ M)) := by
      unfold consecConflictPred
      have h1 : (a + 1 - a).toNat = 1 := by omega
      rw [h1]
      by_cases hw : worked a
      · simp [streakVal, hw]
      · simp [hw]
    rcases ih (a + 1) (if worked a then v + 1 else 0) with ⟨ih1, ih2⟩
    have hcons : rangeN a (n + 1) = a :: rangeN (a + 1) n := rfl
    by_cases hw : worked a
    · have hv' : (if worked a = true then v + 1 else 0) = v + 1 := by
        rw [hw]
        exact if_pos rfl
      rw [hv'] at ih1 ih2 hfiltail
      by_cases hc : ((v + 1 : Nat) : Int) > N ∧ 1 ≤ a ∧ a ≤ M
      · have hhv : consecConflictPred worked N M a v a = true := by
          rw [hhead, hw, Bool.true_and, decide_eq_true_eq]
          exact hc
        have hgo : maxConsecGo emp worked N M a (n + 1) v
            = ((maxConsecGo emp worked N M (a + 1) n (v + 1)).1 + 1,
              (⟨a, emp ++ " 連續工作第 " ++ toString (v + 1) ++ " 天 (超過限制 "
                  ++ toString N ++ " 天)"⟩ : Finding)
                :: (maxConsecGo emp worked N M (a + 1) n (v + 1)).2) := by
          simp only [maxConsecGo, hw, if_true, if_pos hc]
        rw [hgo, hcons, List.filter_cons, hhv, if_pos rfl]
        constructor
        · simp only [List.length_cons, hfiltail, ih1]
        · simp only [List.map_cons, hfiltail, ih2]
      · have hhv : consecConflictPred worked N M a v a = false := by
          rw [hhead, hw, Bool.true_and, decide_eq_false_iff_not]
          exact hc
        have hgo : maxConsecGo emp worked N M a (n + 1) v
            = maxConsecGo emp worked N M (a + 1) n (v + 1) := by
          simp only [maxConsecGo, hw, if_true, if_neg hc]
        rw [hgo, hcons, List.filter_cons, hhv]
        simp only [Bool.false_eq_true, if_false, hfiltail]
        exact ⟨ih1, ih2⟩
    · have hw' : worked a = false := by simpa using hw
      have hv' : (if worked a = true then v + 1 else 0) = 0 := by
        rw [hw']
        exact if_neg (by simp)
      rw [hv'] at ih1 ih2 hfiltail
      have hhv : consecConflictPred worked N M a v a = false := by
        rw [hhead, hw', Bool.false_and]
      have hgo : maxConsecGo emp worked N M a (n + 1) v
          = maxConsecGo emp worked N M (a + 1) n 0 := by
        simp only [maxConsecGo, hw', Bool.false_eq_true, if_false]
      rw [hgo, hcons, List.filter_cons, hhv]
      simp only [Bool.false_eq_true, if_false, hfiltail]
      exact ⟨ih1, ih2⟩

theorem rangeN_append (a : Int) (m k : Nat) :
    rangeN a (m + k) = rangeN a m ++ rangeN (a + m) k := by
  induction m generalizing a with
  | zero => simp [rangeN]
  | succ m ihm =>
    have hmk : (m + 1) + k = (m + k) + 1 := by omega
    rw [hmk]
    show a :: rangeN (a + 1) (m + k) = (a :: rangeN (a + 1) m) ++ rangeN (a + ((m : Int) + 1)) k
    rw [ihm (a + 1)]
    simp only [List.cons_append, List.cons.injEq, true_and]
    congr 2
    ring

theorem streakVal_zero_gt (worked : Int → Bool) :
    ∀ (n : Nat) (a N : Int), 0 ≤ N →
      (N < ((streakVal worked 0 a n : Nat) : Int) ↔
        (N + 1 ≤ (n : Int)
          ∧ ∀ d : Int, a + n - 1 - N ≤ d → d ≤ a + n - 1 → worked d = true)) := by
  intro n
  induction n with
  | zero =>
    intro a N hN
    constructor
    · intro h
      exfalso
      simp [streakVal] at h
      omega
    · rintro ⟨h1, _⟩
      exfalso
      push_cast at h1
      omega
  | succ n ih =>
    intro a N hN
    by_cases hw : worked (a + n)
    · have hsv : streakVal worked 0 a (n + 1) = streakVal worked 0 a n + 1 := by
        simp [streakVal, hw]
      rw [hsv]
      rcases eq_or_lt_of_le hN with h0 | h1
      · cases h0
        constructor
        · intro _
          refine ⟨by push_cast; omega, ?_⟩
          intro d hd1 hd2
          have hde : d = a + n := by push_cast at hd1 hd2; omega
          rw [hde]
          exact hw
        · intro _
          push_cast
          omega
      · have ihN := ih a (N - 1) (by omega)
        constructor
        · intro h
          have h' : N - 1 < ((streakVal worked 0 a n : Nat) : Int) := by
            push_cast at h ⊢
            omega
          obtain ⟨hn1, hall⟩ := ihN.mp h'
          refine ⟨by push_cast at hn1 ⊢; omega, ?_⟩
          intro d hd1 hd2
          push_cast at hd1 hd2
          by_cases hde : d = a + n
          · rw [hde]
            exact hw
          · exact hall d (by omega) (by omega)
        · rintro ⟨hn1, hall⟩
          have hall' : ∀ d : Int, a + n - 1 - (N - 1) ≤ d → d ≤ a + n - 1 →
              worked d = true := by
            intro d hd1 hd2
            refine hall d ?_ ?_
            · push_cast
              omega
            · push_cast
              omega
          have h' := ihN.mpr ⟨by push_cast at hn1 ⊢; omega, hall'⟩
          push_cast at h' ⊢
          omega
    · have hw' : worked (a + n) = false := by simpa using hw
      have hsv : streakVal worked 0 a (n + 1) = 0 := by simp [streakVal, hw']
      rw [hsv]
      constructor
      · intro h
        exfalso
        push_cast at h
        omega
      · rintro ⟨h1, hall⟩
        exfalso
        have hwd := hall (a + n) (by push_cast; omega) (by push_cast; omega)
        rw [hw'] at hwd
        exact absurd hwd (by simp)

/-- C3: for a numeric threshold `N ≥ 0`, `checkMaxConsecutiveWorkDays` scans
from `N` days before the month through month end maintaining a running
worked-day streak that resets on any unworked day, and records one conflict
on exactly those in-month days `d` whose streak exceeds `N` — equivalently
(the scan window starting `N` days before day 1) the days `d` with
`d - N .. d` all worked.  On the claim's instance (`N = 3`, employee works
days 1-4 with no `off` day and no work before day 1) exactly one conflict is
produced, on day 4. -/
theorem checkMaxConsecutiveWorkDays_window_spec (e : String) (N : Int) (ctx : Context)
    (hN : 0 ≤ N) :
    (checkMaxConsecutiveWorkDays ⟨"maxConsecutiveWorkDays", e, some N⟩ ctx).1
        = ((intRange 1 ctx.daysInMonth).filter
            (fun d => (intRange (d - N) d).all (worksOn ctx.scheduleData e))).length
    ∧ (checkMaxConsecutiveWorkDays ⟨"maxConsecutiveWorkDays", e, some N⟩ ctx).2.map
          Finding.date
        = (intRange 1 ctx.daysInMonth).filter
            (fun d => (intRange (d - N) d).all (worksOn ctx.scheduleData e))
    ∧ (checkMaxConsecutiveWorkDays ⟨"maxConsecutiveWorkDays", "E", some 3⟩ ctxDays1to4).1 = 1
    ∧ (checkMaxConsecutiveWorkDays ⟨"maxConsecutiveWorkDays", "E", some 3⟩
          ctxDays1to4).2.map Finding.date = [4] := by
  have hunf : checkMaxConsecutiveWorkDays ⟨"maxConsecutiveWorkDays", e, some N⟩ ctx
      = maxConsecGo e (worksOn ctx.scheduleData e) N (ctx.daysInMonth : Int) (1 - N)
          (((ctx.daysInMonth : Int) + 1 - (1 - N)).toNat) 0 := rfl
  obtain ⟨hcount, hdates⟩ := maxConsecGo_spec e (worksOn ctx.scheduleData e) N
    (ctx.daysInMonth : Int) (((ctx.daysInMonth : Int) + 1 - (1 - N)).toNat) (1 - N) 0
  have hfilters :
      (rangeN (1 - N) (((ctx.daysInMonth : Int) + 1 - (1 - N)).toNat)).filter
          (consecConflictPred (worksOn ctx.scheduleData e) N (ctx.daysInMonth : Int)
            (1 - N) 0)
        = (intRange 1 ctx.daysInMonth).filter
            (fun d => (intRange (d - N) d).all (worksOn ctx.scheduleData e)) := by
    have hsplit : (((ctx.daysInMonth : Int) + 1 - (1 - N)).toNat)
        = N.toNat + ctx.daysInMonth := by omega
    rw [hsplit, rangeN_append, List.filter_append]
    have hpre : (rangeN (1 - N) N.toNat).filter
        (consecConflictPred (worksOn ctx.scheduleData e) N (ctx.daysInMonth : Int)
          (1 - N) 0) = [] := by
      rw [List.filter_eq_nil_iff]
      intro d hd
      obtain ⟨_, hdlt⟩ := mem_rangeN.mp hd
      have hd0 : ¬ (1 ≤ d) := by omega
      unfold consecConflictPred
      simp [hd0]
    rw [hpre, List.nil_append]
    have hbase : (1 - N) + (N.toNat : Int) = 1 := by omega
    rw [hbase]
    have hint : intRange 1 (ctx.daysInMonth : Int) = rangeN 1 ctx.daysInMonth := by
      unfold intRange
      congr 1
      omega
    rw [hint]
    apply List.filter_congr
    intro d hd
    obtain ⟨hd1, hd2⟩ := mem_rangeN.mp hd
    unfold consecConflictPred
    have hidx : (d + 1 - (1 - N)).toNat = (d + N).toNat := by omega
    rw [hidx]
    have hgt := streakVal_zero_gt (worksOn ctx.scheduleData e) (d + N).toNat (1 - N) N hN
    have hn : (((d + N).toNat : Nat) : Int) = d + N := by omega
    rw [hn] at hgt
    apply Bool.coe_iff_coe.mp
    constructor
    · intro hband
      obtain ⟨hwd, hprop⟩ := Bool.and_eq_true_iff.mp hband
      obtain ⟨hstk, _, _⟩ := of_decide_eq_true hprop
      obtain ⟨_, hall⟩ := hgt.mp hstk
      rw [List.all_eq_true]
      intro x hx
      obtain ⟨hx1, hx2⟩ := mem_intRange.mp hx
      exact hall x (by omega) (by omega)
    · intro hall
      rw [List.all_eq_true] at hall
      have hall' : ∀ x : Int, d - N ≤ x → x ≤ d → worksOn ctx.scheduleData e x = true :=
        fun x h1 h2 => hall x (mem_intRange.mpr ⟨h1, h2⟩)
      have hwd : worksOn ctx.scheduleData e d = true := hall' d (by omega) (by omega)
      rw [hwd, Bool.true_and]
      apply decide_eq_true
      refine ⟨hgt.mpr ⟨by omega, fun x h1 h2 => hall' x (by omega) (by omega)⟩, by omega,
        by omega⟩
  refine ⟨?_, ?_, by decide, by decide⟩
  · rw [hunf, hcount, hfilters]
  · rw [hunf, hdates, hfilters]

/-- Witness for C3 at the claim's instance: threshold 3 over the days-1-to-4
schedule — one conflict, on day 4. -/
theorem checkMaxConsecutiveWorkDays_window_spec_witness :
    (0 : Int) ≤ 3
    ∧ (checkMaxConsecutiveWorkDays ⟨"maxConsecutiveWorkDays", "E", some 3⟩ ctxDays1to4).1
        = 1 :=
  ⟨by decide, (checkMaxConsecutiveWorkDays_window_spec "E" 3 ctxDays1to4 (by decide)).2.2.1⟩

/-! ### C5: the fairness selection entry points -/

theorem getBest_length (xs : List String) (sh : Shift) (k : Nat) (stats : Stats)
    (strategy : String) (date : Option Nat) :
    (RuleEngineV1.getBestEmployeeSelection xs sh k stats strategy date).length
      = min xs.length k := by
  unfold RuleEngineV1.getBestEmployeeSelection
  by_cases hle : xs.length ≤ k
  · rw [if_pos hle]
    omega
  · rw [if_neg hle]
    split_ifs
    · rw [List.length_take, length_sortBy]
      omega
    · rw [List.length_take, length_sortBy]
      omega
    · rw [List.length_take, length_sortBy]
      omega
    · cases date with
      | none => rw [List.length_take, length_sortBy]; omega
      | some di => rw [List.length_take, length_jsRotate, length_sortBy]; omega
    · rw [List.length_take, length_sortBy]
      omega

theorem selectV2_length (xs : List String) (sh : Shift) (k : Nat) (stats : Stats)
    (allEmployees : List String) (strategy : String) (date : Option Nat) :
    (RuleEngine.selectEmployeesWithFairness xs sh k stats allEmployees strategy date).length
      = min xs.length k := by
  unfold RuleEngine.selectEmployeesWithFairness
  by_cases hle : xs.length ≤ k
  · rw [if_pos hle]
    omega
  · rw [if_neg hle]
    split_ifs
    · rw [List.length_take, length_sortBy]
      omega
    · rw [List.length_take, length_sortBy]
      omega
    · rw [List.length_take, length_sortBy]
      omega
    · cases date with
      | none => rw [List.length_take, length_sortBy]; omega
      | some di => rw [List.length_take, length_jsRotate, length_sortBy]; omega
    · rw [List.length_take, length_sortBy]
      omega

theorem getBest_subset (xs : List String) (sh : Shift) (k : Nat) (stats : Stats)
    (strategy : String) (date : Option Nat) :
    ∀ x ∈ RuleEngineV1.getBestEmployeeSelection xs sh k stats strategy date, x ∈ xs := by
  intro x hx
  unfold RuleEngineV1.getBestEmployeeSelection at hx
  by_cases hle : xs.length ≤ k
  · rw [if_pos hle] at hx
    exact hx
  · rw [if_neg hle] at hx
    split_ifs at hx
    · exact mem_sortBy.mp (List.mem_of_mem_take hx)
    · exact mem_sortBy.mp (List.mem_of_mem_take hx)
    · exact mem_sortBy.mp (List.mem_of_mem_take hx)
    · cases date with
      | none => exact mem_sortBy.mp (List.mem_of_mem_take hx)
      | some di => exact mem_sortBy.mp (mem_jsRotate.mp (List.mem_of_mem_take hx))
    · exact mem_sortBy.mp (List.mem_of_mem_take hx)

/-- The first (fairness) phase of the earlier revision's
`selectEmployeesWithFairness`: the best selection among the available
under-scheduled employees, for `min(availableUnderScheduled.length,
requiredCount)` slots (empty when no available employee is under-scheduled). -/
def v1Phase1 (avail : List String) (sh : Shift) (req : Nat) (stats : Stats)
    (allEmployees : List String) (strategy : String) (date : Option Nat) : List String :=
  let availableUnderScheduled := avail.filter
    (fun e => (RuleEngineV1.getUnderScheduledEmployees stats allEmployees).contains e)
  if availableUnderScheduled.length > 0 then
    RuleEngineV1.getBestEmployeeSelection availableUnderScheduled sh
      (min availableUnderScheduled.length req) stats strategy date
  else []

theorem getBest_nil_of_zero (xs : List String) (sh : Shift) (stats : Stats)
    (strategy : String) (date : Option Nat) (k : Nat) (h : min xs.length k = 0) :
    RuleEngineV1.getBestEmployeeSelection xs sh k stats strategy date = [] :=
  List.length_eq_zero.mp (by rw [getBest_length]; omega)

theorem selectV1_decomposition (avail : List String) (sh : Shift) (req : Nat)
    (stats : Stats) (allEmployees : List String) (strategy : String) (date : Option Nat)
    (h : req < avail.length) :
    RuleEngineV1.selectEmployeesWithFairness avail sh req stats allEmployees strategy date
      = v1Phase1 avail sh req stats allEmployees strategy date
        ++ RuleEngineV1.getBestEmployeeSelection
            (avail.filter (fun e =>
              !((v1Phase1 avail sh req stats allEmployees strategy date).contains e)))
            sh (req - (v1Phase1 avail sh req stats allEmployees strategy date).length)
            stats strategy date := by
  simp only [RuleEngineV1.selectEmployeesWithFairness, v1Phase1]
  rw [if_neg (by omega : ¬ avail.length ≤ req)]
  set AU := avail.filter
    (fun e => (RuleEngineV1.getUnderScheduledEmployees stats allEmployees).contains e)
    with hAU
  set p1 := if AU.length > 0 then
      RuleEngineV1.getBestEmployeeSelection AU sh (min AU.length req) stats strategy date
    else [] with hp1
  by_cases hlen : p1.length < req
  · rw [if_pos hlen]
    by_cases hra : (avail.filter (fun e => !(p1.contains e))).length > 0
    · rw [if_pos hra]
    · rw [if_neg hra]
      have hz : RuleEngineV1.getBestEmployeeSelection
          (avail.filter (fun e => !(p1.contains e))) sh (req - p1.length)
          stats strategy date = [] :=
        getBest_nil_of_zero _ _ _ _ _ _ (by omega)
      rw [hz, List.append_nil]
  · rw [if_neg hlen]
    have hz : RuleEngineV1.getBestEmployeeSelection
        (avail.filter (fun e => !(p1.contains e))) sh (req - p1.length)
        stats strategy date = [] :=
      getBest_nil_of_zero _ _ _ _ _ _ (by omega)
    rw [hz, List.append_nil]

theorem v1Phase1_length (avail : List String) (sh : Shift) (req : Nat) (stats : Stats)
    (allEmployees : List String) (strategy : String) (date : Option Nat) :
    (v1Phase1 avail sh req stats allEmployees strategy date).length
      = min (avail.filter (fun e =>
          (RuleEngineV1.getUnderScheduledEmployees stats allEmployees).contains e)).length
          req := by
  unfold v1Phase1
  by_cases hpos : (avail.filter (fun e =>
      (RuleEngineV1.getUnderScheduledEmployees stats allEmployees).contains e)).length > 0
  · rw [if_pos hpos, getBest_length]
    omega
  · rw [if_neg hpos]
    simp only [List.length_nil]
    omega

theorem v1Phase1_eq_self (avail : List String) (sh : Shift) (req : Nat) (stats : Stats)
    (allEmployees : List String) (strategy : String) (date : Option Nat)
    (hsmall : (avail.filter (fun e =>
        (RuleEngineV1.getUnderScheduledEmployees stats allEmployees).contains e)).length
        ≤ req) :
    v1Phase1 avail sh req stats allEmployees strategy date
      = avail.filter (fun e =>
          (RuleEngineV1.getUnderScheduledEmployees stats allEmployees).contains e) := by
  unfold v1Phase1
  by_cases hpos : (avail.filter (fun e =>
      (RuleEngineV1.getUnderScheduledEmployees stats allEmployees).contains e)).length > 0
  · rw [if_pos hpos]
    unfold RuleEngineV1.getBestEmployeeSelection
    rw [if_pos (by omega)]
  · rw [if_neg hpos]
    exact (List.length_eq_zero.mp (by omega)).symm

/-- C5 counterexample: available pool `[A, B]`, roster `[A, B]` with `A`
below the mean total shifts (0 < 5) and `B` above it (10 > 5), one slot,
`rotate` strategy on an odd day.  The later revision returns `[B]` — it
never consults the under-scheduled set, so it does not "first fill slots
from the available employees whose totalShifts lie below the mean" (that
would force `[A]`, which is what the earlier two-phase revision returns). -/
theorem selectWithFairness_later_revision_counterexample :
    RuleEngine.selectEmployeesWithFairness ["A", "B"] Shift.day 1 statsSkew ["A", "B"]
        "rotate" (some 1) = ["B"]
      ∧ RuleEngineV1.getUnderScheduledEmployees statsSkew ["A", "B"] = ["A"]
      ∧ totalOf statsSkew "A" * 2 < (statsSkew.map (fun p => p.2.totalShifts)).sum
      ∧ ¬ (totalOf statsSkew "B" * 2 < (statsSkew.map (fun p => p.2.totalShifts)).sum)
      ∧ RuleEngineV1.selectEmployeesWithFairness ["A", "B"] Shift.day 1 statsSkew
          ["A", "B"] "rotate" (some 1) = ["A"] := by
  refine ⟨by decide, by decide, by decide, by decide, by decide⟩

/-- C5 (amended): with more available employees than required, both
revisions return exactly `requiredCount` employees; the later revision's
result is independent of `allEmployees` (it applies the strategy ranking to
the whole available pool, single-phase), while the earlier revision first
fills slots from the available under-scheduled employees — all of whom are
available and below the roster mean (`totalShifts * rosterSize <
totalShiftsSum`) — ranked by the strategy, and only then fills the remaining
slots from the remaining available employees, ranked the same way. -/
theorem selectWithFairness_two_phase_spec (avail : List String) (sh : Shift) (req : Nat)
    (stats : Stats) (allEmployees allEmployees' : List String) (strategy : String)
    (date : Option Nat) (h : req < avail.length) :
    (RuleEngine.selectEmployeesWithFairness avail sh req stats allEmployees strategy
        date).length = req
    ∧ RuleEngine.selectEmployeesWithFairness avail sh req stats allEmployees strategy date
        = RuleEngine.selectEmployeesWithFairness avail sh req stats allEmployees' strategy
            date
    ∧ RuleEngineV1.selectEmployeesWithFairness avail sh req stats allEmployees strategy date
        = v1Phase1 avail sh req stats allEmployees strategy date
          ++ RuleEngineV1.getBestEmployeeSelection
              (avail.filter (fun e =>
                !((v1Phase1 avail sh req stats allEmployees strategy date).contains e)))
              sh (req - (v1Phase1 avail sh req stats allEmployees strategy date).length)
              stats strategy date
    ∧ (RuleEngineV1.selectEmployeesWithFairness avail sh req stats allEmployees strategy
        date).length = req
    ∧ (∀ x ∈ v1Phase1 avail sh req stats allEmployees strategy date,
        x ∈ avail ∧ x ∈ RuleEngineV1.getUnderScheduledEmployees stats allEmployees)
    ∧ (∀ x ∈ RuleEngineV1.getUnderScheduledEmployees stats allEmployees,
        x ∈ allEmployees
          ∧ totalOf stats x * (allEmployees.length : Int)
              < (stats.map (fun p => p.2.totalShifts)).sum) := by
  refine ⟨?_, rfl, selectV1_decomposition avail sh req stats allEmployees strategy date h,
    ?_, ?_, ?_⟩
  · rw [selectV2_length]
    omega
  · rw [selectV1_decomposition avail sh req stats allEmployees strategy date h,
      List.length_append, getBest_length, v1Phase1_length]
    by_cases hcase : req ≤ (avail.filter (fun e =>
        (RuleEngineV1.getUnderScheduledEmployees stats allEmployees).contains e)).length
    · omega
    · have hp1AU := v1Phase1_eq_self avail sh req stats allEmployees strategy date
        (by omega)
      have hcong : ∀ e ∈ avail,
          (!((v1Phase1 avail sh req stats allEmployees strategy date).contains e))
            = (!((RuleEngineV1.getUnderScheduledEmployees stats allEmployees).contains e))
          := by
        intro e he
        rw [hp1AU]
        by_cases hu : ((RuleEngineV1.getUnderScheduledEmployees stats
            allEmployees).contains e) = true
        · have hmem : e ∈ avail.filter (fun e =>
              (RuleEngineV1.getUnderScheduledEmployees stats allEmployees).contains e) :=
            List.mem_filter.mpr ⟨he, hu⟩
          have hcv : ((avail.filter (fun e =>
              (RuleEngineV1.getUnderScheduledEmployees stats
                allEmployees).contains e)).contains e) = true :=
            List.elem_eq_true_of_mem hmem
          rw [hcv, hu]
        · have hu' : ((RuleEngineV1.getUnderScheduledEmployees stats
              allEmployees).contains e) = false := by simpa using hu
          have h2 : ((avail.filter (fun e =>
              (RuleEngineV1.getUnderScheduledEmployees stats
                allEmployees).contains e)).contains e) = false := by
            by_cases h2t : ((avail.filter (fun e =>
                (RuleEngineV1.getUnderScheduledEmployees stats
                  allEmployees).contains e)).contains e) = true
            · exfalso
              obtain ⟨_, hp⟩ := List.mem_filter.mp (List.mem_of_elem_eq_true h2t)
              rw [hu'] at hp
              exact absurd hp (by simp)
            · simpa using h2t
          rw [h2, hu']
      rw [List.filter_congr hcong]
      have hpart := @List.length_eq_length_filter_add _ avail (fun e =>
        (RuleEngineV1.getUnderScheduledEmployees stats allEmployees).contains e)
      omega
  · intro x hx
    unfold v1Phase1 at hx
    by_cases hpos : (avail.filter (fun e =>
        (RuleEngineV1.getUnderScheduledEmployees stats allEmployees).contains e)).length
        > 0
    · rw [if_pos hpos] at hx
      have hmem := getBest_subset _ _ _ _ _ _ x hx
      obtain ⟨ha, hu⟩ := List.mem_filter.mp hmem
      exact ⟨ha, List.mem_of_elem_eq_true hu⟩
    · rw [if_neg hpos] at hx
      exact absurd hx (by simp)
  · intro x hx
    unfold RuleEngineV1.getUnderScheduledEmployees at hx
    obtain ⟨hmem, hdec⟩ := List.mem_filter.mp (mem_sortBy.mp hx)
    exact ⟨hmem, of_decide_eq_true hdec⟩

/-- Witness for C5's amended theorem at a concrete input: two available
employees, one slot, `rotate` strategy — both revisions return exactly one
employee. -/
theorem selectWithFairness_two_phase_spec_witness :
    (1 : Nat) < (["A", "B"] : List String).length
    ∧ (RuleEngine.selectEmployeesWithFairness ["A", "B"] Shift.day 1 statsSkew ["A", "B"]
        "rotate" (some 1)).length = 1
    ∧ (RuleEngineV1.selectEmployeesWithFairness ["A", "B"] Shift.day 1 statsSkew ["A", "B"]
        "rotate" (some 1)).length = 1 := by
  have hs := selectWithFairness_two_phase_spec ["A", "B"] Shift.day 1 statsSkew ["A", "B"]
    ["A", "B"] "rotate" (some 1) (by decide)
  exact ⟨by decide, hs.1, hs.2.2.2.1⟩
